import Mathlib

/-!
Verification of the tsxlib time-series library core.

This file shallowly embeds the data model, the join engine and the iterator
family of the library (src/index.rs, src/data_elements.rs, src/timeseries.rs,
src/timeseries_iterators.rs, src/joins.rs, src/algo/int_utils.rs) as Lean
definitions, and proves or refutes the specification claims about them.

Modelling conventions:
* Rust `Vec<T>` is `List T`; machine indices are `Nat`.
* Fallible Rust functions returning `Result` are embedded with `Except String`;
  a Rust panic (`unwrap` on an error, out-of-bounds slice access) is a
  distinguished `Except.error` or an `Option.none` of the surrounding collector,
  as documented at each definition.
* Rust iterators are state machines: a `next` function from an explicit state
  to an optional (item, state) pair.  Rust `collect` repeatedly calls `next`
  until the first `None`; it is embedded as a fuel-indexed loop, called with
  fuel that provably exceeds the number of items any run can produce.
* The `hash_precompare` cargo feature is disabled (the default), so
  `JoinEngine::index_is_same` always returns `false`; the embeddings therefore
  model only the main code path of each join.
-/

namespace Tsx

/-- Embeds `HashableIndex` (src/index.rs): a wrapper around a vector of keys. -/
structure HashableIndex (κ : Type) where
  values : List κ
deriving Repr, DecidableEq

/-- Embeds `TimeSeriesDataPoint` (src/data_elements.rs): an immutable
(timestamp, value) pair. -/
structure TimeSeriesDataPoint (κ ν : Type) where
  timestamp : κ
  value : ν
deriving Repr, DecidableEq

/-- Embeds `TimeSeries` (src/timeseries.rs): one index plus a value vector. -/
structure TimeSeries (κ ν : Type) where
  timeindicies : HashableIndex κ
  values : List ν
deriving Repr, DecidableEq

namespace HashableIndex

/-- Embeds `HashableIndex::new`. -/
def new (values : List κ) : HashableIndex κ := ⟨values⟩

/-- Embeds `HashableIndex::len`. -/
def len (idx : HashableIndex κ) : Nat := idx.values.length

/-- Embeds `HashableIndex::is_monotonic` (src/index.rs): zips the key vector
with itself skipped by one and requires `x < y` for every adjacent pair. -/
def is_monotonic [LinearOrder κ] (idx : HashableIndex κ) : Bool :=
  (idx.values.zip idx.values.tail).all fun p => decide (p.1 < p.2)

/-- Embeds `HashableIndex::is_unique` (src/index.rs): builds a `HashSet` of the
keys and compares cardinalities.  The cardinality of the set is the number of
distinct keys, i.e. the length of the deduplicated vector. -/
def is_unique [DecidableEq κ] (idx : HashableIndex κ) : Bool :=
  idx.values.dedup.length == idx.values.length

end HashableIndex

namespace TimeSeries

/-- Embeds `TimeSeries::from_vecs_unchecked`: no validation at all. -/
def from_vecs_unchecked (timeindicies : HashableIndex κ) (values : List ν) :
    TimeSeries κ ν :=
  ⟨timeindicies, values⟩

/-- Embeds `TimeSeries::from_vecs_minimal_checks`: length-mismatch check only. -/
def from_vecs_minimal_checks (timeindicies : HashableIndex κ) (values : List ν) :
    Except String (TimeSeries κ ν) :=
  if timeindicies.len ≠ values.length then
    .error "length mismatch"
  else
    .ok (from_vecs_unchecked timeindicies values)

/-- Embeds `TimeSeries::from_vecs` (src/timeseries.rs): rejects a non-unique or
non-monotonic index, then delegates to the minimal (length) check. -/
def from_vecs [LinearOrder κ] (timeindicies : List κ) (values : List ν) :
    Except String (TimeSeries κ ν) :=
  let idx : HashableIndex κ := HashableIndex.new timeindicies
  if !idx.is_unique || !idx.is_monotonic then
    .error "tied to build with an invalid index"
  else
    from_vecs_minimal_checks idx values

/-- Embeds `TimeSeries::len`. -/
def len (ts : TimeSeries κ ν) : Nat := ts.timeindicies.len

end TimeSeries

/-! ### Helper lemmas about the validation predicates -/

theorem is_monotonic_iff_chain [LinearOrder κ] :
    ∀ l : List κ, (HashableIndex.new l).is_monotonic = true ↔ l.Chain' (· < ·)
  | [] => by simp [HashableIndex.is_monotonic, HashableIndex.new]
  | [a] => by simp [HashableIndex.is_monotonic, HashableIndex.new]
  | a :: b :: t => by
    have ih := is_monotonic_iff_chain (b :: t)
    simp only [HashableIndex.is_monotonic, HashableIndex.new, List.tail_cons,
      List.zip_cons_cons, List.all_cons, Bool.and_eq_true, decide_eq_true_eq,
      List.chain'_cons] at *
    exact and_congr Iff.rfl ih

theorem is_unique_iff_nodup [DecidableEq κ] (l : List κ) :
    (HashableIndex.new l).is_unique = true ↔ l.Nodup := by
  simp only [HashableIndex.is_unique, HashableIndex.new, beq_iff_eq]
  constructor
  · intro h
    have hsub : l.dedup.Sublist l := List.dedup_sublist l
    have : l.dedup = l := hsub.eq_of_length h
    rw [← this]
    exact List.nodup_dedup l
  · intro h
    rw [List.dedup_eq_self.mpr h]

theorem from_vecs_ok_iff [LinearOrder κ] (keys : List κ) (values : List ν)
    (ts : TimeSeries κ ν) :
    TimeSeries.from_vecs keys values = .ok ts ↔
      (keys.length = values.length ∧ keys.Nodup ∧ keys.Chain' (· < ·) ∧
        ts = ⟨⟨keys⟩, values⟩) := by
  rw [← is_unique_iff_nodup keys, ← is_monotonic_iff_chain keys]
  simp only [HashableIndex.new]
  unfold TimeSeries.from_vecs TimeSeries.from_vecs_minimal_checks
    TimeSeries.from_vecs_unchecked
  simp only [HashableIndex.new, HashableIndex.len]
  cases hu : (⟨keys⟩ : HashableIndex κ).is_unique
  · simp [hu]
  · cases hm : (⟨keys⟩ : HashableIndex κ).is_monotonic
    · simp [hu, hm]
    · by_cases hl : keys.length = values.length
      · simp only [hu, hm, hl]
        simp
        constructor
        · intro h; exact h.symm
        · intro h; exact h.symm
      · simp [hu, hm, hl]

theorem from_vecs_error_iff [LinearOrder κ] (keys : List κ) (values : List ν) :
    (∃ e, TimeSeries.from_vecs keys values = .error e) ↔
      (keys.length ≠ values.length ∨ ¬ keys.Nodup ∨ ¬ keys.Chain' (· < ·)) := by
  constructor
  · rintro ⟨e, he⟩
    by_contra hc
    push_neg at hc
    obtain ⟨h1, h2, h3⟩ := hc
    have := (from_vecs_ok_iff keys values ⟨⟨keys⟩, values⟩).mpr ⟨h1, h2, h3, rfl⟩
    rw [this] at he
    exact Except.noConfusion he
  · intro h
    rcases hok : TimeSeries.from_vecs keys values with e | ts
    · exact ⟨_, rfl⟩
    · exfalso
      obtain ⟨h1, h2, h3, _⟩ := (from_vecs_ok_iff keys values ts).mp hok
      rcases h with h | h | h
      · exact h h1
      · exact h h2
      · exact h h3

/-- C5: validated construction (`from_vecs`) returns a recoverable error iff
the lengths differ, the keys are not pairwise distinct, or the keys are not
strictly increasing in storage order; on success the returned series holds
exactly the given keys and values unmodified. -/
theorem from_vecs_spec [LinearOrder κ] (keys : List κ) (values : List ν) :
    ((∃ e, TimeSeries.from_vecs keys values = .error e) ↔
      (keys.length ≠ values.length ∨ ¬ keys.Nodup ∨ ¬ keys.Chain' (· < ·)))
    ∧ (∀ ts, TimeSeries.from_vecs keys values = .ok ts →
        ts.timeindicies.values = keys ∧ ts.values = values) := by
  refine ⟨from_vecs_error_iff keys values, fun ts h => ?_⟩
  obtain ⟨_, _, _, hts⟩ := (from_vecs_ok_iff keys values ts).mp h
  cases hts
  exact ⟨rfl, rfl⟩

/-- Witness for C5 at a concrete input: keys `[1,2,3]`, values `[7,8,9]`
validate successfully and are held unmodified, and the degenerate input with a
duplicate key is an error. -/
theorem from_vecs_spec_witness :
    ((⟨⟨[1, 2, 3]⟩, [7, 8, 9]⟩ : TimeSeries Int Int).timeindicies.values = [1, 2, 3]
      ∧ (⟨⟨[1, 2, 3]⟩, [7, 8, 9]⟩ : TimeSeries Int Int).values = [7, 8, 9])
    ∧ ((∃ e, TimeSeries.from_vecs (ν := Int) [(1 : Int), 1] [5, 6] = .error e) ↔
      (([(1 : Int), 1].length ≠ [(5 : Int), 6].length ∨ ¬ [(1 : Int), 1].Nodup
        ∨ ¬ [(1 : Int), 1].Chain' (· < ·)))) :=
  ⟨(from_vecs_spec [1, 2, 3] [7, 8, 9]).2 ⟨⟨[1, 2, 3]⟩, [7, 8, 9]⟩ (by rfl),
   (from_vecs_spec [(1 : Int), 1] [5, 6]).1⟩

/-! ### Iterator embedding

A Rust iterator is embedded as a state type with a `next` function.  Rust
`collect` repeatedly calls `next` until the first `None`; `collect` below is
the fuel-indexed embedding of that loop (callers supply fuel that provably
exceeds the number of items any run can produce, so the fuel never runs out
before the natural end of the iterator). -/

def collect (next : σ → Option (π × σ)) : Nat → σ → List π
  | 0, _ => []
  | fuel + 1, s =>
    match next s with
    | none => []
    | some (p, s') => p :: collect next fuel s'

/-- Embeds `TimeSeriesIter` (src/timeseries_iterators.rs): the raw,
non-enforcing iterator; state is the borrowed series plus a cursor. -/
structure TimeSeriesIter (κ ν : Type) where
  ts : TimeSeries κ ν
  index : Nat

/-- Embeds `TimeSeriesIter::next`: emits the point at the cursor and advances,
until the cursor reaches the length. -/
def TimeSeriesIter.next (it : TimeSeriesIter κ ν) :
    Option (TimeSeriesDataPoint κ ν × TimeSeriesIter κ ν) :=
  if it.index < it.ts.len then
    match it.ts.timeindicies.values[it.index]?, it.ts.values[it.index]? with
    | some k, some v => some (⟨k, v⟩, ⟨it.ts, it.index + 1⟩)
    | _, _ => none
  else
    none

/-- Rust `ts.into_iter().collect()` for the raw iterator. -/
def TimeSeries.iter_collect (ts : TimeSeries κ ν) : List (TimeSeriesDataPoint κ ν) :=
  collect TimeSeriesIter.next (ts.len + 1) ⟨ts, 0⟩

/-- Embeds `OrderedTimeSeriesIter` (src/timeseries_iterators.rs): the
order-enforcing iterator; tracks the last emitted key in `priorts`. -/
structure OrderedTimeSeriesIter (κ ν : Type) where
  ts : TimeSeries κ ν
  index : Nat
  priorts : Option κ

/-- Embeds `OrderedTimeSeriesIter::new`. -/
def OrderedTimeSeriesIter.new (ts : TimeSeries κ ν) (index : Nat) :
    OrderedTimeSeriesIter κ ν :=
  ⟨ts, index, none⟩

/-- Embeds `OrderedTimeSeriesIter::next`.  The source increments the cursor
before comparing the candidate key with `priorts`, and on a disordered
candidate returns `None` while leaving `priorts` unchanged — so the mutated
state is returned even when no item is emitted, exactly as in the source. -/
def OrderedTimeSeriesIter.next [LinearOrder κ] (it : OrderedTimeSeriesIter κ ν) :
    Option (TimeSeriesDataPoint κ ν) × OrderedTimeSeriesIter κ ν :=
  if it.index < it.ts.len then
    match it.ts.timeindicies.values[it.index]?, it.ts.values[it.index]? with
    | some k, some v =>
      let rval : TimeSeriesDataPoint κ ν := ⟨k, v⟩
      match it.priorts with
      | none => (some rval, ⟨it.ts, it.index + 1, some k⟩)
      | some p =>
        if p ≤ k then (some rval, ⟨it.ts, it.index + 1, some k⟩)
        else (none, ⟨it.ts, it.index + 1, it.priorts⟩)
    | _, _ => (none, ⟨it.ts, it.index + 1, it.priorts⟩)
  else
    (none, it)

/-- One `next` call as an item-and-state step, for the collector: Rust
`collect` stops at the first `None` result. -/
def OrderedTimeSeriesIter.step [LinearOrder κ] (it : OrderedTimeSeriesIter κ ν) :
    Option (TimeSeriesDataPoint κ ν × OrderedTimeSeriesIter κ ν) :=
  match it.next with
  | (some p, it') => some (p, it')
  | (none, _) => none

/-- Rust `ts.into_ordered_iter().collect()`. -/
def TimeSeries.ordered_iter_collect [LinearOrder κ] (ts : TimeSeries κ ν) :
    List (TimeSeriesDataPoint κ ν) :=
  collect OrderedTimeSeriesIter.step (ts.len + 1) (OrderedTimeSeriesIter.new ts 0)

/-- The result of the `(n+1)`-th `next()` call on the ordered iterator
(together with the state after it): `run it 0` is the first call. -/
def OrderedTimeSeriesIter.run [LinearOrder κ] (it : OrderedTimeSeriesIter κ ν) :
    Nat → Option (TimeSeriesDataPoint κ ν) × OrderedTimeSeriesIter κ ν
  | 0 => it.next
  | n + 1 => (it.next).2.run n

/-- C4 counterexample: on the unchecked series with index `[1,2,3,4,0,5]` the
5th `next()` call meets the disordered key `0` (strictly less than the last
emitted key `4`) and returns `None` — yet the 6th `next()` call emits the
point `(5, 60)`.  This refutes the claim that the iterator is permanently
terminated with no element at or after the disorder ever emitted by a later
`next()` call. -/
theorem ordered_iter_not_poisoned_cex :
    ((OrderedTimeSeriesIter.new
        (TimeSeries.from_vecs_unchecked ⟨[(1 : Int), 2, 3, 4, 0, 5]⟩
          [(10 : Int), 20, 30, 40, 50, 60]) 0).run 4).1 = none
    ∧ ¬ (((OrderedTimeSeriesIter.new
        (TimeSeries.from_vecs_unchecked ⟨[(1 : Int), 2, 3, 4, 0, 5]⟩
          [(10 : Int), 20, 30, 40, 50, 60]) 0).run 5).1 = none) := by
  decide

/-- C4 (amended): when the ordered iterator meets a candidate key strictly
less than the last emitted key, that `next()` call returns `None` and the
element is skipped (the cursor advances, the remembered key is unchanged), but
the iterator is not permanently terminated: a later `next()` call can emit a
subsequent element whose key is not below the last emitted key.  Since
collecting stops at the first `None`, for index `[1,2,3,4,0,5]` built
unchecked the collected ordered iterator yields only the first 4 points,
while the raw non-enforcing iterator yields all 6. -/
theorem ordered_iter_skip_resume :
    (TimeSeries.from_vecs_unchecked ⟨[(1 : Int), 2, 3, 4, 0, 5]⟩
        [(10 : Int), 20, 30, 40, 50, 60]).ordered_iter_collect =
      [⟨1, 10⟩, ⟨2, 20⟩, ⟨3, 30⟩, ⟨4, 40⟩]
    ∧ (TimeSeries.from_vecs_unchecked ⟨[(1 : Int), 2, 3, 4, 0, 5]⟩
        [(10 : Int), 20, 30, 40, 50, 60]).iter_collect =
      [⟨1, 10⟩, ⟨2, 20⟩, ⟨3, 30⟩, ⟨4, 40⟩, ⟨0, 50⟩, ⟨5, 60⟩]
    ∧ ((OrderedTimeSeriesIter.new
        (TimeSeries.from_vecs_unchecked ⟨[(1 : Int), 2, 3, 4, 0, 5]⟩
          [(10 : Int), 20, 30, 40, 50, 60]) 0).run 4).1 = none
    ∧ ((OrderedTimeSeriesIter.new
        (TimeSeries.from_vecs_unchecked ⟨[(1 : Int), 2, 3, 4, 0, 5]⟩
          [(10 : Int), 20, 30, 40, 50, 60]) 0).run 5).1 = some ⟨5, 60⟩ := by
  decide

/-! ### Construction from data points (src/timeseries.rs) -/

/-- Embeds `TimeSeries::from_tsdatapoints`: stable-sorts the points by
timestamp (Rust `sort_by_key`), splits them into a key vector and a value
vector, and validates via `from_vecs`. -/
def TimeSeries.from_tsdatapoints [LinearOrder κ] (tsdatapoints : List (TimeSeriesDataPoint κ ν)) :
    Except String (TimeSeries κ ν) :=
  let dpc := tsdatapoints.mergeSort fun x y => decide (x.timestamp ≤ y.timestamp)
  TimeSeries.from_vecs (dpc.map (·.timestamp)) (dpc.map (·.value))

/-- Embeds the `FromIterator` impl for `TimeSeries` (`collect`):
`from_tsdatapoints(iter.collect()).unwrap()`.  `none` models the Rust panic of
`unwrap` applied to a validation error. -/
def TimeSeries.collect_datapoints [LinearOrder κ] (dps : List (TimeSeriesDataPoint κ ν)) :
    Option (TimeSeries κ ν) :=
  match TimeSeries.from_tsdatapoints dps with
  | .ok ts => some ts
  | .error _ => none

/-- The data points of a series in storage order (what `TimeSeries::iter`
emits, materialized). -/
def TimeSeries.points (ts : TimeSeries κ ν) : List (TimeSeriesDataPoint κ ν) :=
  List.zipWith TimeSeriesDataPoint.mk ts.timeindicies.values ts.values

theorem zipWith_mk_map (l : List (TimeSeriesDataPoint κ ν)) :
    List.zipWith TimeSeriesDataPoint.mk (l.map (·.timestamp)) (l.map (·.value)) = l := by
  induction l with
  | nil => rfl
  | cons p t ih => simp [ih]

/-- C10: collecting data points via the `FromIterator` impl first sorts by
timestamp, so out-of-order input with pairwise-distinct keys succeeds and
yields the key-sorted series (a permutation of the input with strictly
increasing keys); input containing two equal timestamps makes the collect
panic (modelled as `none`) instead of returning a recoverable failure. -/
theorem from_iter_spec [LinearOrder κ] (dps : List (TimeSeriesDataPoint κ ν)) :
    ((dps.map (·.timestamp)).Nodup →
      ∃ ts, TimeSeries.collect_datapoints dps = some ts ∧
        ts.points.Perm dps ∧ ts.timeindicies.values.Chain' (· < ·))
    ∧ (¬ (dps.map (·.timestamp)).Nodup →
      TimeSeries.collect_datapoints dps = none) := by
  set le : TimeSeriesDataPoint κ ν → TimeSeriesDataPoint κ ν → Bool :=
    fun x y => decide (x.timestamp ≤ y.timestamp) with hle
  set dpc := dps.mergeSort le with hdpc
  have hperm : dpc.Perm dps := List.mergeSort_perm dps le
  have hpw : dpc.Pairwise fun x y => le x y := by
    refine List.sorted_mergeSort ?_ ?_ dps
    · intro a b c hab hbc
      simp only [hle, decide_eq_true_eq] at *
      exact le_trans hab hbc
    · intro a b
      simp only [hle, Bool.or_eq_true, decide_eq_true_eq]
      exact le_total a.timestamp b.timestamp
  have hpw' : dpc.Pairwise fun x y => x.timestamp ≤ y.timestamp := by
    refine hpw.imp ?_
    intro a b h
    simpa [hle] using h
  have hkeyperm : (dpc.map (·.timestamp)).Perm (dps.map (·.timestamp)) :=
    hperm.map _
  constructor
  · intro hnd
    have hndk : (dpc.map (·.timestamp)).Nodup := hkeyperm.nodup_iff.mpr hnd
    have hne : dpc.Pairwise fun x y => x.timestamp ≠ y.timestamp :=
      List.pairwise_map.mp hndk
    have hlt : dpc.Pairwise fun x y => x.timestamp < y.timestamp :=
      (hpw'.and hne).imp fun h => lt_of_le_of_ne h.1 h.2
    have hchain : (dpc.map (·.timestamp)).Chain' (· < ·) := by
      refine List.Pairwise.chain' ?_
      rw [List.pairwise_map]
      exact hlt
    have hnodup : (dpc.map (·.timestamp)).Nodup := hndk
    have hok : TimeSeries.from_vecs (dpc.map (·.timestamp)) (dpc.map (·.value)) =
        .ok ⟨⟨dpc.map (·.timestamp)⟩, dpc.map (·.value)⟩ := by
      refine (from_vecs_ok_iff _ _ _).mpr ?_
      refine ⟨by simp, hnodup, ?_, rfl⟩
      rw [List.chain'_map] at hchain
      rw [List.chain'_map]
      exact hchain
    refine ⟨⟨⟨dpc.map (·.timestamp)⟩, dpc.map (·.value)⟩, ?_, ?_, ?_⟩
    · simp only [TimeSeries.collect_datapoints, TimeSeries.from_tsdatapoints]
      rw [← hdpc, hok]
    · simp only [TimeSeries.points]
      rw [zipWith_mk_map]
      exact hperm
    · exact hchain
  · intro hnd
    simp only [TimeSeries.collect_datapoints, TimeSeries.from_tsdatapoints]
    rw [← hdpc]
    rcases hcase : TimeSeries.from_vecs (dpc.map (·.timestamp)) (dpc.map (·.value)) with e | ts
    · rw [hcase]
    · exfalso
      obtain ⟨_, hnodup, _, _⟩ := (from_vecs_ok_iff _ _ _).mp hcase
      exact hnd (hkeyperm.nodup_iff.mp hnodup)

/-- Witness for C10: the out-of-order input `[(3,30),(1,10),(2,20)]` has
pairwise-distinct keys, so collecting succeeds with a key-sorted permutation
of the input; the input `[(1,10),(1,11)]` with equal timestamps panics. -/
theorem from_iter_spec_witness :
    (∃ ts, TimeSeries.collect_datapoints
        [(⟨3, 30⟩ : TimeSeriesDataPoint Int Int), ⟨1, 10⟩, ⟨2, 20⟩] = some ts ∧
      ts.points.Perm [(⟨3, 30⟩ : TimeSeriesDataPoint Int Int), ⟨1, 10⟩, ⟨2, 20⟩] ∧
      ts.timeindicies.values.Chain' (· < ·))
    ∧ TimeSeries.collect_datapoints
        [(⟨1, 10⟩ : TimeSeriesDataPoint Int Int), ⟨1, 11⟩] = none :=
  ⟨(from_iter_spec [(⟨3, 30⟩ : TimeSeriesDataPoint Int Int), ⟨1, 10⟩, ⟨2, 20⟩]).1
      (by decide),
   (from_iter_spec [(⟨1, 10⟩ : TimeSeriesDataPoint Int Int), ⟨1, 11⟩]).2
      (by decide)⟩

/-! ### Shifted iterator (src/timeseries_iterators.rs) -/

/-- Embeds `add_offset`: checked application of a signed delta to an unsigned
index; `none` models `checked_sub` failure (`checked_add` overflow is
unreachable for in-memory vector sizes and is not modelled). -/
def add_offset (indexer : Nat) (delta : Int) : Option Nat :=
  if delta < 0 then
    if delta.natAbs ≤ indexer then some (indexer - delta.natAbs) else none
  else
    some (indexer + delta.toNat)

/-- Embeds `ShiftedTimeSeriesIter`. -/
structure ShiftedTimeSeriesIter (κ ν : Type) where
  ts : TimeSeries κ ν
  index : Nat
  shift_index : Int

/-- Embeds `ShiftedTimeSeriesIter::new`: negates the requested shift and, for
a negative internal shift (a lead), starts the cursor at the lead distance. -/
def ShiftedTimeSeriesIter.new (ts : TimeSeries κ ν) (index : Nat) (shift : Int) :
    ShiftedTimeSeriesIter κ ν :=
  let shift_index := -shift
  let init_index := if shift_index < 0 then (-shift_index).toNat else index
  ⟨ts, init_index, shift_index⟩

/-- Embeds `ShiftedTimeSeriesIter::next`: pre-increments the cursor, computes
the key index by checked offset, and emits only while both the key index and
the value index are inside the series. -/
def ShiftedTimeSeriesIter.next (it : ShiftedTimeSeriesIter κ ν) :
    Option (TimeSeriesDataPoint κ ν × ShiftedTimeSeriesIter κ ν) :=
  match add_offset (it.index + 1) (it.shift_index - 1) with
  | some tidx =>
    if max tidx (it.index + 1 - 1) < it.ts.len then
      match it.ts.timeindicies.values[tidx]?, it.ts.values[it.index + 1 - 1]? with
      | some k, some v => some (⟨k, v⟩, ⟨it.ts, it.index + 1, it.shift_index⟩)
      | _, _ => none
    else
      none
  | none => none

/-- Embeds `TimeSeries::shift`. -/
def TimeSeries.shift (ts : TimeSeries κ ν) (shift : Int) : ShiftedTimeSeriesIter κ ν :=
  ShiftedTimeSeriesIter.new ts 0 shift

/-- Rust `ts.shift(n).collect()`. -/
def TimeSeries.shift_collect (ts : TimeSeries κ ν) (shift : Int) :
    List (TimeSeriesDataPoint κ ν) :=
  collect ShiftedTimeSeriesIter.next (ts.len + 1) (ts.shift shift)

theorem shift_collect_lag_aux (ts : TimeSeries κ ν) (m : Nat) (hm : 1 ≤ m) :
    ∀ fuel i, ts.timeindicies.values.length ≤ i + m + fuel →
      collect ShiftedTimeSeriesIter.next fuel ⟨ts, i, (m : Int)⟩ =
        ((ts.timeindicies.values.drop (i + m)).zip (ts.values.drop i)).map
          fun p => ⟨p.1, p.2⟩ := by
  intro fuel
  induction fuel with
  | zero =>
    intro i hf
    have : ts.timeindicies.values.drop (i + m) = [] :=
      List.drop_eq_nil_of_le (by omega)
    simp [collect, this]
  | succ fuel ih =>
    intro i hf
    have hoff : add_offset (i + 1) ((m : Int) - 1) = some (i + m) := by
      have h1 : ¬ ((m : Int) - 1 < 0) := by omega
      simp only [add_offset, if_neg h1]
      congr 1
      omega
    have hmax : max (i + m) i = i + m :=
      max_eq_left (by omega)
    simp only [collect, ShiftedTimeSeriesIter.next, hoff, Nat.add_sub_cancel,
      TimeSeries.len, HashableIndex.len, hmax]
    by_cases h : i + m < ts.timeindicies.values.length
    · have hkey : ts.timeindicies.values[i + m]? = some (ts.timeindicies.values[i + m]) :=
        List.getElem?_eq_getElem h
      rcases hv : ts.values[i]? with _ | v
      · -- value access fails: only possible when the value vector is shorter
        rw [List.getElem?_eq_none_iff] at hv
        rw [if_pos h, hkey]
        have : ts.values.drop i = [] := List.drop_eq_nil_of_le hv
        simp [this]
      · rw [if_pos h, hkey]
        have hvlt : i < ts.values.length := (List.getElem?_eq_some_iff.mp hv).1
        rw [List.drop_eq_getElem_cons h, List.drop_eq_getElem_cons hvlt]
        simp only [List.zip_cons_cons, List.map_cons]
        rw [ih (i + 1) (by omega)]
        have heq : ts.values[i] = v := (List.getElem?_eq_some_iff.mp hv).2
        rw [heq, show i + 1 + m = i + m + 1 from by omega]
    · have hdrop : ts.timeindicies.values.drop (i + m) = [] :=
        List.drop_eq_nil_of_le (by omega)
      rw [if_neg h]
      simp [hdrop]

theorem shift_collect_lead_aux (ts : TimeSeries κ ν)
    (hwf : ts.values.length = ts.timeindicies.values.length) (m : Nat) :
    ∀ fuel i, m ≤ i → ts.timeindicies.values.length ≤ i + fuel →
      collect ShiftedTimeSeriesIter.next fuel ⟨ts, i, -(m : Int)⟩ =
        ((ts.timeindicies.values.drop (i - m)).zip (ts.values.drop i)).map
          fun p => ⟨p.1, p.2⟩ := by
  intro fuel
  induction fuel with
  | zero =>
    intro i hmi hf
    have : ts.values.drop i = [] := List.drop_eq_nil_of_le (by omega)
    simp [collect, this]
  | succ fuel ih =>
    intro i hmi hf
    have hoff : add_offset (i + 1) (-(m : Int) - 1) = some (i - m) := by
      have h1 : (-(m : Int) - 1) < 0 := by omega
      have h2 : (-(m : Int) - 1).natAbs = m + 1 := by omega
      simp only [add_offset, if_pos h1, h2, if_pos (by omega : m + 1 ≤ i + 1)]
      congr 1
      omega
    have hmax : max (i - m) i = i :=
      max_eq_right (by omega)
    simp only [collect, ShiftedTimeSeriesIter.next, hoff, Nat.add_sub_cancel,
      TimeSeries.len, HashableIndex.len, hmax]
    by_cases h : i < ts.timeindicies.values.length
    · have hkey : ts.timeindicies.values[i - m]? = some (ts.timeindicies.values[i - m]) :=
        List.getElem?_eq_getElem (by omega)
      have hvlt : i < ts.values.length := by omega
      have hval : ts.values[i]? = some (ts.values[i]) := List.getElem?_eq_getElem hvlt
      rw [if_pos h, hkey, hval]
      rw [List.drop_eq_getElem_cons (show i - m < ts.timeindicies.values.length by omega),
        List.drop_eq_getElem_cons hvlt]
      simp only [List.zip_cons_cons, List.map_cons]
      rw [ih (i + 1) (by omega) (by omega),
        show i + 1 - m = i - m + 1 from by omega]
    · have hdrop : ts.values.drop i = [] := List.drop_eq_nil_of_le (by omega)
      rw [if_neg h]
      simp [hdrop]

/-- C9: collecting `shift(n)` yields `len − |n|` points (empty when
`|n| ≥ len`, out-of-range positions terminate rather than producing a
default); for a lag (`n < 0`) each point pairs the key at position `i` with
the value at position `i − |n|`, i.e. the output is the element-wise pairing
of the keys dropped by `|n|` with the values; for a lead (`n > 0`) it pairs
the key at position `i` with the value at position `i + |n|`. -/
theorem shift_spec (ts : TimeSeries κ ν)
    (hwf : ts.values.length = ts.timeindicies.values.length) (sh : Int) :
    (ts.shift_collect sh).length = ts.len - sh.natAbs
    ∧ (sh < 0 → ts.shift_collect sh =
        ((ts.timeindicies.values.drop sh.natAbs).zip ts.values).map fun p => ⟨p.1, p.2⟩)
    ∧ (0 < sh → ts.shift_collect sh =
        (ts.timeindicies.values.zip (ts.values.drop sh.natAbs)).map fun p => ⟨p.1, p.2⟩) := by
  rcases lt_trichotomy sh 0 with hneg | hzero | hpos
  · have hm : 1 ≤ sh.natAbs := by omega
    have hcast : ((sh.natAbs : Nat) : Int) = -sh := by omega
    have hcollect : ts.shift_collect sh =
        ((ts.timeindicies.values.drop sh.natAbs).zip ts.values).map fun p => ⟨p.1, p.2⟩ := by
      have hnew : ts.shift sh = ⟨ts, 0, (sh.natAbs : Int)⟩ := by
        simp only [TimeSeries.shift, ShiftedTimeSeriesIter.new]
        rw [if_neg (by omega)]
        rw [hcast]
      rw [TimeSeries.shift_collect, hnew]
      have := shift_collect_lag_aux ts sh.natAbs hm (ts.len + 1) 0
        (by simp [TimeSeries.len, HashableIndex.len]; omega)
      simpa using this
    refine ⟨?_, fun _ => hcollect, fun hc => absurd hc (by omega)⟩
    rw [hcollect]
    simp only [List.length_map, List.length_zip, List.length_drop, TimeSeries.len,
      HashableIndex.len]
    omega
  · subst hzero
    have hcollect : ts.shift_collect 0 =
        ((ts.timeindicies.values.drop 0).zip (ts.values.drop 0)).map fun p => ⟨p.1, p.2⟩ := by
      have hnew : ts.shift 0 = ⟨ts, 0, -((0 : Nat) : Int)⟩ := by
        simp [TimeSeries.shift, ShiftedTimeSeriesIter.new]
      rw [TimeSeries.shift_collect, hnew]
      exact shift_collect_lead_aux ts hwf 0 (ts.len + 1) 0 (by omega)
        (by simp [TimeSeries.len, HashableIndex.len])
    refine ⟨?_, fun hc => absurd hc (by omega), fun hc => absurd hc (by omega)⟩
    rw [hcollect]
    simp only [List.length_map, List.length_zip, List.length_drop, TimeSeries.len,
      HashableIndex.len, List.drop_zero]
    omega
  · have hcast : ((sh.natAbs : Nat) : Int) = sh := by omega
    have hcollect : ts.shift_collect sh =
        (ts.timeindicies.values.zip (ts.values.drop sh.natAbs)).map fun p => ⟨p.1, p.2⟩ := by
      have hnew : ts.shift sh = ⟨ts, sh.natAbs, -((sh.natAbs : Nat) : Int)⟩ := by
        simp only [TimeSeries.shift, ShiftedTimeSeriesIter.new]
        rw [if_pos (by omega), hcast]
        congr 1
        omega
      rw [TimeSeries.shift_collect, hnew]
      have := shift_collect_lead_aux ts hwf sh.natAbs (ts.len + 1) sh.natAbs
        (le_refl _) (by simp [TimeSeries.len, HashableIndex.len]; omega)
      simpa using this
    refine ⟨?_, fun hc => absurd hc (by omega), fun _ => hcollect⟩
    rw [hcollect]
    simp only [List.length_map, List.length_zip, List.length_drop, TimeSeries.len,
      HashableIndex.len]
    omega

/-- Witness for C9: the 5-point series with keys `[0..4]`, values `[1..5]`;
`shift(-1)` yields the 4-point lag pairing and `shift(5)` yields the empty
sequence (length `5 − 5 = 0`). -/
theorem shift_spec_witness :
    ((⟨⟨[0, 1, 2, 3, 4]⟩, [1, 2, 3, 4, 5]⟩ : TimeSeries Int Int).shift_collect (-1)).length
        = (⟨⟨[0, 1, 2, 3, 4]⟩, [1, 2, 3, 4, 5]⟩ : TimeSeries Int Int).len - (-1 : Int).natAbs
    ∧ ((⟨⟨[0, 1, 2, 3, 4]⟩, [1, 2, 3, 4, 5]⟩ : TimeSeries Int Int).shift_collect (-1) =
        (([(0 : Int), 1, 2, 3, 4].drop (-1 : Int).natAbs).zip [(1 : Int), 2, 3, 4, 5]).map
          fun p => ⟨p.1, p.2⟩)
    ∧ ((⟨⟨[0, 1, 2, 3, 4]⟩, [1, 2, 3, 4, 5]⟩ : TimeSeries Int Int).shift_collect 5).length
        = (⟨⟨[0, 1, 2, 3, 4]⟩, [1, 2, 3, 4, 5]⟩ : TimeSeries Int Int).len - (5 : Int).natAbs :=
  ⟨(shift_spec (⟨⟨[0, 1, 2, 3, 4]⟩, [1, 2, 3, 4, 5]⟩ : TimeSeries Int Int) (by rfl) (-1)).1,
   (shift_spec (⟨⟨[0, 1, 2, 3, 4]⟩, [1, 2, 3, 4, 5]⟩ : TimeSeries Int Int) (by rfl) (-1)).2.1
     (by decide),
   (shift_spec (⟨⟨[0, 1, 2, 3, 4]⟩, [1, 2, 3, 4, 5]⟩ : TimeSeries Int Int) (by rfl) 5).1⟩

/-! ### Rolling iterators (src/timeseries_iterators.rs) -/

/-- Embeds `RollingTimeSeriesIter`: cursor, window size, reduction function
and the materialized buffer. -/
structure RollingTimeSeriesIter (κ ν ρ : Type) where
  ts : TimeSeries κ ν
  index : Nat
  window_size : Nat
  transform_func : List ν → ρ
  buffer : List ν

/-- Embeds `RollingTimeSeriesIter::new`: the cursor starts at
`window_size − 1` and the buffer is seeded with the slice
`values[0..window_size]` (`take`; the source slice would panic when
`window_size` exceeds the length, which no caller in the claims does). -/
def RollingTimeSeriesIter.new (ts : TimeSeries κ ν) (window_size : Nat)
    (transform_func : List ν → ρ) : RollingTimeSeriesIter κ ν ρ :=
  ⟨ts, window_size - 1, window_size, transform_func, ts.values.take window_size⟩

/-- Embeds `RollingTimeSeriesIter::next`: applies the reduction to the
current buffer, then removes the front element and inserts the value at the
(pre-increment) cursor at position `window_size − 1` (the back). -/
def RollingTimeSeriesIter.next (it : RollingTimeSeriesIter κ ν ρ) :
    Option (TimeSeriesDataPoint κ ρ × RollingTimeSeriesIter κ ν ρ) :=
  if it.index < it.ts.len then
    match it.ts.timeindicies.values[it.index]?, it.ts.values[it.index]? with
    | some k, some rv =>
      some (⟨k, it.transform_func it.buffer⟩,
        ⟨it.ts, it.index + 1, it.window_size, it.transform_func,
          (it.buffer.drop 1).insertIdx (it.window_size - 1) rv⟩)
    | _, _ => none
  else
    none

/-- Rust `ts.apply_rolling(window, f).collect()`. -/
def TimeSeries.apply_rolling_collect (ts : TimeSeries κ ν) (window_size : Nat)
    (transform_func : List ν → ρ) : List (TimeSeriesDataPoint κ ρ) :=
  collect RollingTimeSeriesIter.next (ts.len + 1)
    (RollingTimeSeriesIter.new ts window_size transform_func)

/-- Embeds `RollingTimeSeriesIterWithUpdate`: keeps only the optional
accumulator `ref_value` and `last_value`, the value first read at
construction (the source never updates `last_value` afterwards). -/
structure RollingTimeSeriesIterWithUpdate (κ ν ρ : Type) where
  ts : TimeSeries κ ν
  index : Nat
  ref_value : Option ρ
  last_value : ν
  update_func : Option ρ → ν → Option ρ
  decrement_func : Option ρ → ν → Option ρ

/-- Embeds `RollingTimeSeriesIterWithUpdate::new`: seeds the accumulator by
folding `update_func` over the first `window_size` values starting from
`None`, and records `values[window_size − 1]` as `last_value` (`getD`; the
source access would panic when the window exceeds the length). -/
def RollingTimeSeriesIterWithUpdate.new [Inhabited ν] (ts : TimeSeries κ ν)
    (window_size : Nat) (update_func decrement_func : Option ρ → ν → Option ρ) :
    RollingTimeSeriesIterWithUpdate κ ν ρ :=
  ⟨ts, window_size - 1, (ts.values.take window_size).foldl update_func none,
    ts.values.getD (window_size - 1) default, update_func, decrement_func⟩

/-- Embeds `RollingTimeSeriesIterWithUpdate::next`: applies `update_func`
with the value at the (pre-increment) cursor, then `decrement_func` with the
stored `last_value`; emits only when the accumulator is present. -/
def RollingTimeSeriesIterWithUpdate.next (it : RollingTimeSeriesIterWithUpdate κ ν ρ) :
    Option (TimeSeriesDataPoint κ ρ × RollingTimeSeriesIterWithUpdate κ ν ρ) :=
  if it.index < it.ts.len then
    match it.ts.timeindicies.values[it.index]?, it.ts.values[it.index]? with
    | some k, some rv =>
      match it.decrement_func (it.update_func it.ref_value rv) it.last_value with
      | some out =>
        some (⟨k, out⟩,
          ⟨it.ts, it.index + 1, some out, it.last_value, it.update_func,
            it.decrement_func⟩)
      | none => none
    | _, _ => none
  else
    none

/-- Rust `ts.apply_updating_rolling(window, update, decrement).collect()`. -/
def TimeSeries.apply_updating_rolling_collect [Inhabited ν] (ts : TimeSeries κ ν)
    (window_size : Nat) (update_func decrement_func : Option ρ → ν → Option ρ) :
    List (TimeSeriesDataPoint κ ρ) :=
  collect RollingTimeSeriesIterWithUpdate.next (ts.len + 1)
    (RollingTimeSeriesIterWithUpdate.new ts window_size update_func decrement_func)

/-- C3: evaluation of `apply_rolling` at the failing input.  On values
`[1,2,3,4,5]` with window 2 and a sum reduction the code emits
`[3, 4, 5, 7]`: after the first window the buffer is updated with the value
at the pre-increment cursor (which it already contains) instead of the next
entering value, so the emitted windows are `[1,2], [2,2], [2,3], [3,4]`
rather than the claimed `[1,2], [2,3], [3,4], [4,5]` (values `[3,5,7,9]`). -/
theorem apply_rolling_eval :
    (⟨⟨[0, 1, 2, 3, 4]⟩, [1, 2, 3, 4, 5]⟩ : TimeSeries Int Int).apply_rolling_collect 2
        (fun l => l.sum) = [⟨1, 3⟩, ⟨2, 4⟩, ⟨3, 5⟩, ⟨4, 7⟩]
    ∧ (⟨⟨[0, 1, 2, 3, 4]⟩, [1, 2, 3, 4, 5]⟩ : TimeSeries Int Int).apply_rolling_collect 2
        (fun l => l.sum) ≠ [⟨1, 3⟩, ⟨2, 5⟩, ⟨3, 7⟩, ⟨4, 9⟩] := by
  exact ⟨rfl, by decide⟩

/-- C8: evaluation of the two rolling computations at the failing input.  On
values `[1,2,3,4,5]` with window 2, the buffer-based rolling sum emits
`[3,4,5,7]` while the incrementally-updated rolling (add on update, subtract
on decrement) emits `[3,4,6,9]` — the sequences differ, because the updating
iterator always subtracts the never-refreshed `last_value`.  On the constant
series of five `1`-values both emit the four points valued `2` that the
specification example demands. -/
theorem rolling_vs_updating_eval :
    (⟨⟨[0, 1, 2, 3, 4]⟩, [1, 2, 3, 4, 5]⟩ : TimeSeries Int Int).apply_rolling_collect 2
        (fun l => l.sum) = [⟨1, 3⟩, ⟨2, 4⟩, ⟨3, 5⟩, ⟨4, 7⟩]
    ∧ (⟨⟨[0, 1, 2, 3, 4]⟩, [1, 2, 3, 4, 5]⟩ : TimeSeries Int Int).apply_updating_rolling_collect 2
        (fun prior next => some (prior.getD 0 + next))
        (fun next prior => some (next.getD 0 - prior)) = [⟨1, 3⟩, ⟨2, 4⟩, ⟨3, 6⟩, ⟨4, 9⟩]
    ∧ (⟨⟨[0, 1, 2, 3, 4]⟩, [1, 1, 1, 1, 1]⟩ : TimeSeries Int Int).apply_rolling_collect 2
        (fun l => l.sum) = [⟨1, 2⟩, ⟨2, 2⟩, ⟨3, 2⟩, ⟨4, 2⟩]
    ∧ (⟨⟨[0, 1, 2, 3, 4]⟩, [1, 1, 1, 1, 1]⟩ : TimeSeries Int Int).apply_updating_rolling_collect 2
        (fun prior next => some (prior.getD 0 + next))
        (fun next prior => some (next.getD 0 - prior)) = [⟨1, 2⟩, ⟨2, 2⟩, ⟨3, 2⟩, ⟨4, 2⟩] :=
  ⟨rfl, rfl, rfl, rfl⟩

/-! ### Skip-apply iterator (src/timeseries_iterators.rs) -/

/-- Fuel-indexed embedding of Rust `collect` for a fallible `next`: a Rust
panic inside `next` is an `Except.error` that aborts the whole collection. -/
def collectE (next : σ → Except String (Option (π × σ))) :
    Nat → σ → Except String (List π)
  | 0, _ => .ok []
  | fuel + 1, s =>
    match next s with
    | .error e => .error e
    | .ok none => .ok []
    | .ok (some (p, s')) =>
      match collectE next fuel s' with
      | .error e => .error e
      | .ok rest => .ok (p :: rest)

/-- Embeds `SkipApplyTimeSeriesIter`. -/
structure SkipApplyTimeSeriesIter (κ ν ρ : Type) where
  ts : TimeSeries κ ν
  index : Nat
  span_size : Nat
  transform_func : ν → ν → ρ
  prior_value : ν

/-- Embeds `SkipApplyTimeSeriesIter::new`: the cursor starts at the span and
the prior value is seeded with `values[0]` (`getD`; the source access would
panic on an empty series). -/
def SkipApplyTimeSeriesIter.new [Inhabited ν] (ts : TimeSeries κ ν) (span_size : Nat)
    (transform_func : ν → ν → ρ) : SkipApplyTimeSeriesIter κ ν ρ :=
  ⟨ts, span_size, span_size, transform_func, ts.values.getD 0 default⟩

/-- Embeds `SkipApplyTimeSeriesIter::next`: the guard is
`index − span + 1 < len`; the source then advances the cursor by the span and
reads key and value at `(index + span) − span`, i.e. at the pre-increment
cursor, which is what this embedding indexes with.  A read past the end of
the vectors is the source's out-of-bounds panic, embedded as an error. -/
def SkipApplyTimeSeriesIter.next (it : SkipApplyTimeSeriesIter κ ν ρ) :
    Except String (Option (TimeSeriesDataPoint κ ρ × SkipApplyTimeSeriesIter κ ν ρ)) :=
  if it.index - it.span_size + 1 < it.ts.len then
    match it.ts.timeindicies.values[it.index]?, it.ts.values[it.index]? with
    | some k, some rv =>
      .ok (some (⟨k, it.transform_func it.prior_value rv⟩,
        ⟨it.ts, it.index + it.span_size, it.span_size, it.transform_func, rv⟩))
    | _, _ => .error "index out of bounds"
  else
    .ok none

/-- Rust `ts.skip_apply(span, f).collect()`; `.error` models a panic during
the collection. -/
def TimeSeries.skip_apply_collect [Inhabited ν] (ts : TimeSeries κ ν) (span_size : Nat)
    (transform_func : ν → ν → ρ) : Except String (List (TimeSeriesDataPoint κ ρ)) :=
  collectE SkipApplyTimeSeriesIter.next (ts.len + 1)
    (SkipApplyTimeSeriesIter.new ts span_size transform_func)

/-- C7 counterexample: on the 5-point series with values `[1,2,3,4,5]` and
span 2, `skip_apply` collects only 2 points (at key positions 2 and 4,
pairing values two positions apart in non-overlapping strides), not the
claimed `5 − 2 = 3` points at every position `i` with `2 ≤ i < 5`. -/
theorem skip_apply_cex :
    (⟨⟨[0, 1, 2, 3, 4]⟩, [1, 2, 3, 4, 5]⟩ : TimeSeries Int Int).skip_apply_collect 2
        (fun prior curr => curr - prior) = .ok [⟨2, 2⟩, ⟨4, 2⟩]
    ∧ ([(⟨2, 2⟩ : TimeSeriesDataPoint Int Int), ⟨4, 2⟩].length ≠ 5 - 2) := by
  exact ⟨rfl, by decide⟩

theorem skip_apply_aux [Inhabited κ] [Inhabited ν] (ts : TimeSeries κ ν)
    (hwf : ts.values.length = ts.timeindicies.values.length)
    (s : Nat) (f : ν → ν → ρ) (hs : 1 ≤ s) (q : Nat)
    (hq : q * s + 1 = ts.timeindicies.values.length) :
    ∀ fuel j, j ≤ q → q - j ≤ fuel →
      collectE SkipApplyTimeSeriesIter.next fuel
          ⟨ts, (j + 1) * s, s, f, ts.values.getD (j * s) default⟩ =
        .ok ((List.range (q - j)).map fun r =>
          ⟨ts.timeindicies.values.getD ((j + r + 1) * s) default,
            f (ts.values.getD ((j + r) * s) default)
              (ts.values.getD ((j + r + 1) * s) default)⟩) := by
  intro fuel
  induction fuel with
  | zero =>
    intro j hj hf
    have : q - j = 0 := by omega
    simp [collectE, this]
  | succ fuel ih =>
    intro j hj hf
    by_cases hcase : j < q
    · have hguard : (j + 1) * s - s + 1 < ts.timeindicies.values.length := by
        have h1 : (j + 1) * s - s = j * s := by
          rw [Nat.succ_mul]
          omega
        rw [h1, ← hq]
        have : j * s < q * s := by
          exact Nat.mul_lt_mul_of_lt_of_le hcase (le_refl s) (by omega)
        omega
      have hkin : (j + 1) * s < ts.timeindicies.values.length := by
        rw [← hq]
        have : (j + 1) * s ≤ q * s := Nat.mul_le_mul_right s (by omega)
        omega
      have hvin : (j + 1) * s < ts.values.length := by omega
      have hkey : ts.timeindicies.values[(j + 1) * s]? =
          some (ts.timeindicies.values.getD ((j + 1) * s) default) := by
        rw [List.getD_eq_getElem ts.timeindicies.values default hkin]
        exact List.getElem?_eq_getElem hkin
      have hval : ts.values[(j + 1) * s]? =
          some (ts.values.getD ((j + 1) * s) default) := by
        rw [List.getD_eq_getElem ts.values default hvin]
        exact List.getElem?_eq_getElem hvin
      have hnext : SkipApplyTimeSeriesIter.next
          (⟨ts, (j + 1) * s, s, f, ts.values.getD (j * s) default⟩ :
            SkipApplyTimeSeriesIter κ ν ρ) =
          .ok (some (⟨ts.timeindicies.values.getD ((j + 1) * s) default,
              f (ts.values.getD (j * s) default)
                (ts.values.getD ((j + 1) * s) default)⟩,
            ⟨ts, (j + 1 + 1) * s, s, f, ts.values.getD ((j + 1) * s) default⟩)) := by
        simp only [SkipApplyTimeSeriesIter.next, TimeSeries.len, HashableIndex.len,
          if_pos hguard, hkey, hval]
        rw [show (j + 1) * s + s = (j + 1 + 1) * s from (Nat.succ_mul (j + 1) s).symm]
      have hlist : (⟨ts.timeindicies.values.getD ((j + 1) * s) default,
            f (ts.values.getD (j * s) default)
              (ts.values.getD ((j + 1) * s) default)⟩ : TimeSeriesDataPoint κ ρ) ::
          (List.range (q - (j + 1))).map (fun r =>
            (⟨ts.timeindicies.values.getD ((j + 1 + r + 1) * s) default,
              f (ts.values.getD ((j + 1 + r) * s) default)
                (ts.values.getD ((j + 1 + r + 1) * s) default)⟩ :
              TimeSeriesDataPoint κ ρ)) =
          (List.range (q - j)).map (fun r =>
            (⟨ts.timeindicies.values.getD ((j + r + 1) * s) default,
              f (ts.values.getD ((j + r) * s) default)
                (ts.values.getD ((j + r + 1) * s) default)⟩ :
              TimeSeriesDataPoint κ ρ)) := by
        have hrange : q - j = (q - (j + 1)) + 1 := by omega
        have htail : ((List.range (q - (j + 1))).map fun r =>
            (⟨ts.timeindicies.values.getD ((j + 1 + r + 1) * s) default,
              f (ts.values.getD ((j + 1 + r) * s) default)
                (ts.values.getD ((j + 1 + r + 1) * s) default)⟩ :
              TimeSeriesDataPoint κ ρ)) =
            (List.range (q - (j + 1))).map ((fun r =>
              (⟨ts.timeindicies.values.getD ((j + r + 1) * s) default,
                f (ts.values.getD ((j + r) * s) default)
                  (ts.values.getD ((j + r + 1) * s) default)⟩ :
                TimeSeriesDataPoint κ ρ)) ∘ Nat.succ) := by
          apply List.map_congr_left
          intro r hr
          simp only [Function.comp_apply, Nat.succ_eq_add_one]
          have e1 : j + (r + 1) + 1 = j + 1 + r + 1 := by omega
          have e2 : j + (r + 1) = j + 1 + r := by omega
          rw [e1, e2]
        rw [hrange, List.range_succ_eq_map, List.map_cons, List.map_map, htail]
        rfl
      simp only [collectE, hnext]
      rw [ih (j + 1) (by omega) (by omega)]
      exact congrArg Except.ok hlist
    · have hj' : j = q := by omega
      subst hj'
      have hguard : ¬ ((j + 1) * s - s + 1 < ts.timeindicies.values.length) := by
        have h1 : (j + 1) * s - s = j * s := by
          rw [Nat.succ_mul]
          omega
        rw [h1, ← hq]
        omega
      simp [collectE, SkipApplyTimeSeriesIter.next, TimeSeries.len,
        HashableIndex.len, hguard]

/-- C7 (amended): `skip_apply(s, f)` strides by `s` rather than pairing at
every position: when `(n − 1) % s = 0` (the runs that finish without an
out-of-bounds read, and the only shape exercised by the crate's tests) the
collected output has `(n − 1) / s` points and the `r`-th point (0-based)
sits at key position `(r + 1)·s` with value `f(values[r·s], values[(r+1)·s])`
— each emitted value is paired with the one exactly `s` positions earlier,
but intermediate positions are skipped.  For `s = 1` this coincides with the
original claim. -/
theorem skip_apply_spec [Inhabited κ] [Inhabited ν] (ts : TimeSeries κ ν)
    (hwf : ts.values.length = ts.timeindicies.values.length)
    (s : Nat) (f : ν → ν → ρ) (hs : 1 ≤ s) (hlt : s < ts.timeindicies.values.length)
    (hdiv : (ts.timeindicies.values.length - 1) % s = 0) :
    ts.skip_apply_collect s f =
      .ok ((List.range ((ts.timeindicies.values.length - 1) / s)).map fun r =>
        ⟨ts.timeindicies.values.getD ((r + 1) * s) default,
          f (ts.values.getD (r * s) default)
            (ts.values.getD ((r + 1) * s) default)⟩) := by
  set n := ts.timeindicies.values.length with hn
  set q := (n - 1) / s with hqdef
  have hq : q * s + 1 = n := by
    have h2 : s * ((n - 1) / s) = n - 1 := Nat.mul_div_cancel' (Nat.dvd_of_mod_eq_zero hdiv)
    have h3 : q * s = s * ((n - 1) / s) := by rw [hqdef, Nat.mul_comm]
    omega
  have hinit : SkipApplyTimeSeriesIter.new ts s f =
      (⟨ts, (0 + 1) * s, s, f, ts.values.getD (0 * s) default⟩ :
        SkipApplyTimeSeriesIter κ ν ρ) := by
    simp [SkipApplyTimeSeriesIter.new]
  have h4 : q ≤ q * s := Nat.le_mul_of_pos_right q (by omega)
  rw [TimeSeries.skip_apply_collect, hinit,
    skip_apply_aux ts hwf s f hs q hq (ts.len + 1) 0 (Nat.zero_le q)
      (by simp only [TimeSeries.len, HashableIndex.len]; omega)]
  congr 1
  rw [Nat.sub_zero]
  apply List.map_congr_left
  intro r hr
  simp only [Nat.zero_add]

/-- Witness for C7 (amended) at span 1 on a 5-point series: every position is
paired with its predecessor. -/
theorem skip_apply_spec_witness :
    (⟨⟨[0, 1, 2, 3, 4]⟩, [1, 2, 3, 4, 5]⟩ : TimeSeries Int Int).skip_apply_collect 1
        (fun prior curr => curr - prior) =
      .ok ((List.range ((([(0 : Int), 1, 2, 3, 4]).length - 1) / 1)).map fun r =>
        ⟨([(0 : Int), 1, 2, 3, 4]).getD ((r + 1) * 1) default,
          (fun prior curr => curr - prior)
            (([(1 : Int), 2, 3, 4, 5]).getD (r * 1) default)
            (([(1 : Int), 2, 3, 4, 5]).getD ((r + 1) * 1) default)⟩) :=
  skip_apply_spec (⟨⟨[0, 1, 2, 3, 4]⟩, [1, 2, 3, 4, 5]⟩ : TimeSeries Int Int)
    (by rfl) 1 (fun prior curr => curr - prior) (by decide) (by decide) (by decide)

/-! ### Join engine (src/joins.rs) -/

/-- Embeds `IndexJoinPair`. -/
structure IndexJoinPair where
  this_idx : Nat
  other_idx : Nat
deriving Repr, DecidableEq

/-- Embeds `IndexJoinPotentiallyUnmatchedPair`. -/
structure IndexJoinPotentiallyUnmatchedPair where
  this_idx : Nat
  other_idx : Option Nat
deriving Repr, DecidableEq

/-- Embeds `prior_func` (src/joins.rs): saturating predecessor. -/
def prior_func (idx : Nat) : Nat :=
  if idx = 0 then 0 else idx - 1

/-- Embeds `fwd_func` (src/joins.rs): saturating successor below `otherlen`. -/
def fwd_func (idx : Nat) (otherlen : Nat) : Nat :=
  if idx ≥ otherlen - 1 then otherlen - 1 else idx + 1

/-- Embeds `JoinEngine::gen_base_lookup`: a `HashMap` populated by inserting
`(key, position)` in enumeration order; an insert overwrites, so a lookup
returns the last position carrying the key (`none` when absent). -/
def gen_base_lookup [DecidableEq κ] (hashbase : List κ) (key : κ) : Option Nat :=
  ((hashbase.enum.filter fun p => decide (p.2 = key)).getLast?).map fun p => p.1

/-- Embeds `JoinEngine::get_inner_hash_joined_indicies` (src/joins.rs), with
the `index_is_same` fast path disabled (feature off).  The source's branch
condition is `self.idx_this.len() <= self.idx_this.len()` — it compares the
length of `idx_this` with itself, so it always holds: the lookup is always
built over `idx_this` (with `this_shorter = false`) and the probing side is
always `idx_other`, regardless of which index is shorter. -/
def get_inner_hash_joined_indicies [DecidableEq κ] (idx_this idx_other : List κ) :
    List IndexJoinPair :=
  if idx_this.length ≤ idx_this.length then
    -- this_shorter = false: probe idx_other against the lookup over idx_this
    idx_other.enum.filterMap fun p =>
      (gen_base_lookup idx_this p.2).map fun i => IndexJoinPair.mk i p.1
  else
    -- this_shorter = true: probe idx_this against the lookup over idx_other
    idx_this.enum.filterMap fun p =>
      (gen_base_lookup idx_other p.2).map fun i => IndexJoinPair.mk p.1 i

/-- C2: evaluation of the hash inner join at a deciding input.  With
`idx_this = [1,2,3]` (length 3) and `idx_other = [3,2]` (length 2), the claim
requires the lookup over the shorter `idx_other` probed by the longer
`idx_this` in `idx_this`'s storage order, i.e. `[(1,1),(2,0)]`; the code
instead always probes with `idx_other` and emits `[(2,0),(1,1)]`, following
`idx_other`'s storage order. -/
theorem inner_hash_join_eval :
    get_inner_hash_joined_indicies [(1 : Int), 2, 3] [3, 2] = [⟨2, 0⟩, ⟨1, 1⟩]
    ∧ get_inner_hash_joined_indicies [(1 : Int), 2, 3] [3, 2] ≠ [⟨1, 1⟩, ⟨2, 0⟩] := by
  exact ⟨rfl, by decide⟩

/-- The two-pointer loop of `JoinEngine::get_left_merge_joined_indicies`,
fuel-indexed.  The loop runs only while BOTH cursors are in range; on
`Greater` it pushes `(pos1, None)` and advances `pos2`, on `Less` it pushes
`(pos1, None)` and advances `pos1`, on `Equal` it pushes `(pos1, Some pos2)`
and advances both — exactly the source's cases. -/
def left_merge_loop [LinearOrder κ] (idx_this idx_other : List κ) :
    Nat → Nat → Nat → List IndexJoinPotentiallyUnmatchedPair
  | 0, _, _ => []
  | fuel + 1, pos1, pos2 =>
    if pos1 < idx_this.length ∧ pos2 < idx_other.length then
      match idx_this[pos1]?, idx_other[pos2]? with
      | some a, some b =>
        match compare a b with
        | .gt => ⟨pos1, none⟩ :: left_merge_loop idx_this idx_other fuel pos1 (pos2 + 1)
        | .lt => ⟨pos1, none⟩ :: left_merge_loop idx_this idx_other fuel (pos1 + 1) pos2
        | .eq => ⟨pos1, some pos2⟩ ::
            left_merge_loop idx_this idx_other fuel (pos1 + 1) (pos2 + 1)
      | _, _ => []
    else
      []

/-- Embeds `JoinEngine::get_left_merge_joined_indicies` (fast path disabled).
Each loop iteration advances at least one cursor, so
`idx_this.length + idx_other.length + 1` steps of fuel always reach the
loop's natural exit. -/
def get_left_merge_joined_indicies [LinearOrder κ] (idx_this idx_other : List κ) :
    List IndexJoinPotentiallyUnmatchedPair :=
  left_merge_loop idx_this idx_other (idx_this.length + idx_other.length + 1) 0 0

/-- Embeds `TimeSeries::cross_apply_left` (src/timeseries.rs): left merge
join, map each alignment pair to a data point, then `collect()` — the
`FromIterator` path, whose `unwrap` panic is modelled by `none`. -/
def TimeSeries.cross_apply_left [LinearOrder κ] [Inhabited κ] [Inhabited ν] [Inhabited ν₂]
    (ts : TimeSeries κ ν) (other : TimeSeries κ ν₂) (apply_func : ν → Option ν₂ → ν₃) :
    Option (TimeSeries κ ν₃) :=
  let indexes := get_left_merge_joined_indicies ts.timeindicies.values other.timeindicies.values
  TimeSeries.collect_datapoints (indexes.map fun x =>
    ⟨ts.timeindicies.values.getD x.this_idx default,
      apply_func (ts.values.getD x.this_idx default)
        (x.other_idx.map fun i => other.values.getD i default)⟩)

unseal List.merge List.mergeSort in
/-- C1: evaluation of `cross_apply_left` at the claim's input.  Left-joining
A (keys `[0,1,2,3,4]`, values `[1,2,3,4,5]`) with B (keys `[0,1,2]`, values
`[1,2,4]`) yields only 3 points: the merge loop exits as soon as B's cursor
reaches B's length, dropping A's positions 3 and 4 entirely instead of
emitting them with an absent right side.  (The crate's own doc example for
`cross_apply_left` expects the 5-point result the claim describes.) -/
theorem cross_apply_left_eval :
    TimeSeries.cross_apply_left (⟨⟨[0, 1, 2, 3, 4]⟩, [1, 2, 3, 4, 5]⟩ : TimeSeries Int Int)
        (⟨⟨[0, 1, 2]⟩, [1, 2, 4]⟩ : TimeSeries Int Int) (fun a b => (a, b)) =
      some ⟨⟨[0, 1, 2]⟩, [(1, some 1), (2, some 2), (3, some 4)]⟩
    ∧ ((⟨⟨[0, 1, 2]⟩, [(1, some 1), (2, some 2), (3, some 4)]⟩ :
        TimeSeries Int (Int × Option Int)).len ≠ 5) := by
  exact ⟨rfl, by decide⟩

/-! ### As-of merge join (src/joins.rs, src/algo/int_utils.rs,
src/timeseries.rs) -/

/-- Embeds `MergeAsofMode` (src/timeseries.rs). -/
inductive MergeAsofMode where
  | RollPrior
  | RollFollowing
  | NoRoll

/-- The two-pointer loop of `JoinEngine::get_asof_merge_joined_indicies`,
fuel-indexed.  The comparator receives the current key of `this`, the
current key of `other`, and the key at the roll-target position
`cand_idx_func pos2` of `other`; the result ordering drives the advancement
(`pos1` advances in every branch) and on `Equal` the returned offset is added
to `pos2` to pick the recorded match position.  The source converts this sum
with `try_into().unwrap()`, a panic when negative, embedded as an error; an
out-of-range key access is likewise an error. -/
def asof_loop [LinearOrder κ] (idx_this idx_other : List κ)
    (comp_func : κ → κ → κ → Ordering × Int) (cand_idx_func : Nat → Nat) :
    Nat → Nat → Nat → Except String (List IndexJoinPotentiallyUnmatchedPair)
  | 0, _, _ => .ok []
  | fuel + 1, pos1, pos2 =>
    if pos1 < idx_this.length ∧ pos2 < idx_other.length then
      match idx_this[pos1]?, idx_other[pos2]?, idx_other[cand_idx_func pos2]? with
      | some a, some b, some c =>
        let comp_res := comp_func a b c
        match comp_res.1 with
        | .gt =>
          match asof_loop idx_this idx_other comp_func cand_idx_func fuel (pos1 + 1) pos2 with
          | .error e => .error e
          | .ok rest => .ok (⟨pos1, none⟩ :: rest)
        | .lt =>
          match asof_loop idx_this idx_other comp_func cand_idx_func fuel (pos1 + 1) pos2 with
          | .error e => .error e
          | .ok rest => .ok (⟨pos1, none⟩ :: rest)
        | .eq =>
          let idx0 : Int := (pos2 : Int) + comp_res.2
          if idx0 < 0 then
            .error "negative index"
          else
            match asof_loop idx_this idx_other comp_func cand_idx_func fuel (pos1 + 1)
                (if a = b then pos2 + 1 else pos2) with
            | .error e => .error e
            | .ok rest => .ok (⟨pos1, some idx0.toNat⟩ :: rest)
      | _, _, _ => .error "index out of bounds"
    else
      .ok []

/-- Embeds `JoinEngine::get_asof_merge_joined_indicies` (fast path disabled):
applies the loop with the caller's comparator (default: plain ordinal compare
with zero offset) and roll-target function (default: identity).  `pos1`
advances in every branch, so `idx_this.length + 1` fuel always reaches the
loop's natural exit. -/
def get_asof_merge_joined_indicies [LinearOrder κ] (idx_this idx_other : List κ)
    (compare_func : Option (κ → κ → κ → Ordering × Int))
    (other_idx_func : Option (Nat → Nat)) :
    Except String (List IndexJoinPotentiallyUnmatchedPair) :=
  asof_loop idx_this idx_other
    (compare_func.getD fun a b _ => (compare a b, 0))
    (other_idx_func.getD fun i => i)
    (idx_this.length + 1) 0 0

/-- Embeds `merge_asof_prior_impl` (src/algo/int_utils.rs): accepts the prior
candidate when `this` lies within `lookback` above it; the guard clauses are
evaluated in the source's order. -/
def merge_asof_prior_impl (this other other_prior : Int) (asoflookback : Int) :
    Ordering × Int :=
  let diff := this - other_prior
  if diff < 0 ∧ this ≠ other then (.lt, 0)
  else if diff > asoflookback ∧ this ≠ other then (.gt, 0)
  else if diff ≤ asoflookback ∧ this ≠ other then (.eq, -1)
  else (.eq, 0)

/-- Embeds `merge_asof_prior` (src/algo/int_utils.rs). -/
def merge_asof_prior (look_back : Int) : Int → Int → Int → Ordering × Int :=
  fun this other other_peak => merge_asof_prior_impl this other other_peak look_back

/-- Embeds `TimeSeries::merge_apply_asof` (src/timeseries.rs): panics (an
error here) when a comparator is supplied together with `NoRoll`; otherwise
sets the roll-target function from the mode, joins, maps each alignment pair
to a data point and `collect()`s (the `FromIterator` path, whose validation
`unwrap` panic is also an error). -/
def TimeSeries.merge_apply_asof [LinearOrder κ] [Inhabited κ] [Inhabited ν] [Inhabited ν₂]
    (ts : TimeSeries κ ν) (other : TimeSeries κ ν₂)
    (compare_func : Option (κ → κ → κ → Ordering × Int))
    (apply_func : ν → Option ν₂ → ν₃) (merge_mode : MergeAsofMode) :
    Except String (TimeSeries κ ν₃) :=
  match merge_mode, compare_func with
  | .NoRoll, some _ =>
    .error "you cannot have a roll function if you do not set a merge as of mode"
  | _, _ =>
    let other_idx_func : Option (Nat → Nat) :=
      match merge_mode with
      | .RollFollowing => some fun idx => fwd_func idx other.timeindicies.values.length
      | .RollPrior => some fun idx => prior_func idx
      | .NoRoll => none
    match get_asof_merge_joined_indicies ts.timeindicies.values other.timeindicies.values
        compare_func other_idx_func with
    | .error e => .error e
    | .ok indexes =>
      TimeSeries.from_tsdatapoints (indexes.map fun x =>
        ⟨ts.timeindicies.values.getD x.this_idx default,
          apply_func (ts.values.getD x.this_idx default)
            (x.other_idx.map fun i => other.values.getD i default)⟩)

unseal List.merge List.mergeSort in
/-- C6: evaluation of the as-of roll-prior join at the claimed inputs.  Base
keys `1..10` (all values `1`) joined with other keys `[2,4,5,7,8,10]`
(values `[1,2,3,4,5,6]`): with lookback 1 the result at key `3` (output
position 2) carries other-value `1` (rolled from key `2`); with lookback 2
the result at key `3` still carries `1` and the result at key `6` (output
position 5) carries `3` (rolled from key `5`). -/
theorem merge_asof_roll_prior_eval :
    ((TimeSeries.merge_apply_asof
        (⟨⟨[1, 2, 3, 4, 5, 6, 7, 8, 9, 10]⟩, [1, 1, 1, 1, 1, 1, 1, 1, 1, 1]⟩ :
          TimeSeries Int Int)
        (⟨⟨[2, 4, 5, 7, 8, 10]⟩, [1, 2, 3, 4, 5, 6]⟩ : TimeSeries Int Int)
        (some (merge_asof_prior 1)) (fun a b => (a, b)) .RollPrior).map
      fun res => res.points[2]?) = .ok (some ⟨3, (1, some 1)⟩)
    ∧ ((TimeSeries.merge_apply_asof
        (⟨⟨[1, 2, 3, 4, 5, 6, 7, 8, 9, 10]⟩, [1, 1, 1, 1, 1, 1, 1, 1, 1, 1]⟩ :
          TimeSeries Int Int)
        (⟨⟨[2, 4, 5, 7, 8, 10]⟩, [1, 2, 3, 4, 5, 6]⟩ : TimeSeries Int Int)
        (some (merge_asof_prior 2)) (fun a b => (a, b)) .RollPrior).map
      fun res => res.points[2]?) = .ok (some ⟨3, (1, some 1)⟩)
    ∧ ((TimeSeries.merge_apply_asof
        (⟨⟨[1, 2, 3, 4, 5, 6, 7, 8, 9, 10]⟩, [1, 1, 1, 1, 1, 1, 1, 1, 1, 1]⟩ :
          TimeSeries Int Int)
        (⟨⟨[2, 4, 5, 7, 8, 10]⟩, [1, 2, 3, 4, 5, 6]⟩ : TimeSeries Int Int)
        (some (merge_asof_prior 2)) (fun a b => (a, b)) .RollPrior).map
      fun res => res.points[5]?) = .ok (some ⟨6, (1, some 3)⟩) := by
  exact ⟨rfl, rfl, rfl⟩

end Tsx
